import Mathlib

/-!
Shallow embedding of the `vscode-remote-oss` extension sources
(`src/remotesView.ts` and `src/extension.ts`).

JavaScript strings are modelled as `List Char` (Lean characters are Unicode
scalar values).  The platform functions the source calls (`JSON.stringify`,
`JSON.parse`, `Buffer`'s UTF-8 and base64 codecs, and the two regular
expressions) are modelled concretely below, each with a comment naming the
platform behaviour it follows.
-/

abbrev JStr := List Char

/-- Characters matched by the JavaScript regex atom `.` without the `s` flag:
every character except the four line terminators. -/
def isDotChar (c : Char) : Bool :=
  !(c == '\n' || c == '\r' || c.toNat == 0x2028 || c.toNat == 0x2029)

/-- Characters matched by the JavaScript regex class `\d`. -/
def isDigitChar (c : Char) : Bool :=
  '0' ≤ c && c ≤ '9'

/-- Decimal digit character for a value below ten. -/
def digitChar (n : Nat) : Char :=
  if n = 0 then '0' else if n = 1 then '1' else if n = 2 then '2'
  else if n = 3 then '3' else if n = 4 then '4' else if n = 5 then '5'
  else if n = 6 then '6' else if n = 7 then '7' else if n = 8 then '8' else '9'

/-- Lowercase hexadecimal digit character for a value below sixteen. -/
def hexChar (n : Nat) : Char :=
  if n = 0 then '0' else if n = 1 then '1' else if n = 2 then '2'
  else if n = 3 then '3' else if n = 4 then '4' else if n = 5 then '5'
  else if n = 6 then '6' else if n = 7 then '7' else if n = 8 then '8'
  else if n = 9 then '9' else if n = 10 then 'a' else if n = 11 then 'b'
  else if n = 12 then 'c' else if n = 13 then 'd' else if n = 14 then 'e' else 'f'

/-- Decimal digits of `n`, most significant first (fuel-indexed helper). -/
def natDigitsAux : Nat → Nat → List Char
  | 0, _ => []
  | f+1, n => if n < 10 then [digitChar n] else natDigitsAux f (n / 10) ++ [digitChar (n % 10)]

/-- Decimal digits of `n`, most significant first; models how
`JSON.stringify` prints a non-negative integral number. -/
def natDigits (n : Nat) : List Char := natDigitsAux (n + 1) n

/-- Numeric value of a list of decimal digit characters; models the effect of
JavaScript `parseInt` on a string that is entirely decimal digits. -/
def digitsToNat (ds : List Char) : Nat :=
  ds.foldl (fun a c => a * 10 + (c.toNat - 48)) 0

/-! ### JSON values and `JSON.stringify` (platform model)

`Json.num` stores the numeric lexeme rather than an interpreted number, so
the model does not have to commit to floating-point semantics; every claim
that inspects a number does so through `digitsToNat` on a digit lexeme. -/

inductive Json where
  | null
  | bool (b : Bool)
  | num (lexeme : List Char)
  | str (s : List Char)
  | arr (elems : List Json)
  | obj (members : List (List Char × Json))

/-- Escape of one character inside a JSON string literal, following
`JSON.stringify` (ECMA-262 QuoteJSONString): the two-character escapes for
quote, backslash, backspace, form feed, newline, carriage return and tab,
`\u00xx` with lowercase hex for the remaining control characters, and the
character itself otherwise. -/
def escapeChar (c : Char) : List Char :=
  if c = '"' then ['\\', '"']
  else if c = '\\' then ['\\', '\\']
  else if c = '\x08' then ['\\', 'b']
  else if c = '\x0c' then ['\\', 'f']
  else if c = '\n' then ['\\', 'n']
  else if c = '\r' then ['\\', 'r']
  else if c = '\t' then ['\\', 't']
  else if c.toNat < 0x20 then ['\\', 'u', '0', '0', hexChar (c.toNat / 16), hexChar (c.toNat % 16)]
  else [c]

/-- Body of a JSON string literal (no surrounding quotes). -/
def jsonEscape (s : List Char) : List Char := s.flatMap escapeChar

/-- A complete JSON string literal, quotes included. -/
def stringifyString (s : List Char) : List Char :=
  '"' :: jsonEscape s ++ ['"']

/-! ### UTF-8 (platform model of `Buffer.from(string)` / `buffer.toString()`) -/

/-- UTF-8 bytes of one Unicode scalar value. -/
def utf8EncodeChar (c : Char) : List Nat :=
  if c.toNat < 0x80 then [c.toNat]
  else if c.toNat < 0x800 then [0xC0 + c.toNat / 64, 0x80 + c.toNat % 64]
  else if c.toNat < 0x10000 then
    [0xE0 + c.toNat / 4096, 0x80 + c.toNat / 64 % 64, 0x80 + c.toNat % 64]
  else
    [0xF0 + c.toNat / 0x40000, 0x80 + c.toNat / 4096 % 64,
      0x80 + c.toNat / 64 % 64, 0x80 + c.toNat % 64]

/-- UTF-8 bytes of a string; models `Buffer.from(s)`. -/
def utf8Encode (s : List Char) : List Nat := s.flatMap utf8EncodeChar

/-- The U+FFFD replacement character emitted for invalid byte sequences. -/
def repChar : Char := '�'

/-- Whether a byte is a UTF-8 continuation byte. -/
def isCont (b : Nat) : Bool := 0x80 ≤ b && b < 0xC0

/-- One step of UTF-8 decoding: given the first byte and the bytes after
it, the character produced (U+FFFD for an invalid or truncated sequence) and
how many further bytes the step consumed.  Follows WHATWG decoding as
`buffer.toString()` implements it: an invalid lead, a failed continuation
check or a failed range check emits one replacement character and resumes at
the next undecoded byte; a sequence truncated by the end of input consumes
its valid continuation bytes and emits one replacement character. -/
def utf8Step (b : Nat) (bs : List Nat) : Char × Nat :=
  if b < 0x80 then (Char.ofNat b, 0)
  else if b < 0xC2 then (repChar, 0)
  else if b < 0xE0 then
    match bs with
    | b2 :: _ =>
      if isCont b2 then (Char.ofNat ((b - 0xC0) * 64 + (b2 - 0x80)), 1) else (repChar, 0)
    | [] => (repChar, 0)
  else if b < 0xF0 then
    match bs with
    | b2 :: b3 :: _ =>
      if isCont b2 then
        if isCont b3 then
          if (b - 0xE0) * 4096 + (b2 - 0x80) * 64 + (b3 - 0x80) < 0x800 ∨
              (0xD800 ≤ (b - 0xE0) * 4096 + (b2 - 0x80) * 64 + (b3 - 0x80) ∧
                (b - 0xE0) * 4096 + (b2 - 0x80) * 64 + (b3 - 0x80) < 0xE000) then
            (repChar, 0)
          else (Char.ofNat ((b - 0xE0) * 4096 + (b2 - 0x80) * 64 + (b3 - 0x80)), 2)
        else (repChar, 0)
      else (repChar, 0)
    | [b2] => if isCont b2 then (repChar, 1) else (repChar, 0)
    | [] => (repChar, 0)
  else if b < 0xF5 then
    match bs with
    | b2 :: b3 :: b4 :: _ =>
      if isCont b2 then
        if isCont b3 then
          if isCont b4 then
            if (b - 0xF0) * 0x40000 + (b2 - 0x80) * 4096 + (b3 - 0x80) * 64 + (b4 - 0x80) <
                0x10000 ∨
                0x110000 ≤
                  (b - 0xF0) * 0x40000 + (b2 - 0x80) * 4096 + (b3 - 0x80) * 64 +
                    (b4 - 0x80) then
              (repChar, 0)
            else
              (Char.ofNat
                ((b - 0xF0) * 0x40000 + (b2 - 0x80) * 4096 + (b3 - 0x80) * 64 + (b4 - 0x80)),
                3)
          else (repChar, 0)
        else (repChar, 0)
      else (repChar, 0)
    | [b2, b3] =>
      if isCont b2 then (if isCont b3 then (repChar, 2) else (repChar, 0)) else (repChar, 0)
    | [b2] => if isCont b2 then (repChar, 1) else (repChar, 0)
    | [] => (repChar, 0)
  else (repChar, 0)

/-- Fuel-indexed driver for UTF-8 decoding: one unit of fuel per decoded
character; every step consumes at least one byte, so fuel exceeding the byte
count never runs out. -/
def utf8DecodeAux : Nat → List Nat → List Char
  | 0, _ => []
  | _+1, [] => []
  | f+1, b :: bs =>
    (utf8Step b bs).1 :: utf8DecodeAux f (bs.drop (utf8Step b bs).2)

/-- UTF-8 decoding with U+FFFD replacement for invalid sequences; models
`buffer.toString()`. -/
def utf8Decode (bs : List Nat) : List Char := utf8DecodeAux (bs.length + 1) bs

/-! ### Base64 (platform model of `buffer.toString("base64")` and
`Buffer.from(s, "base64")`) -/

/-- The standard base64 alphabet, in index order. -/
def b64Alphabet : List Char :=
  "ABCDEFGHIJKLMNOPQRSTUVWXYZabcdefghijklmnopqrstuvwxyz0123456789+/".toList

/-- Character for a six-bit value. -/
def b64Char (i : Nat) : Char := b64Alphabet.getD i 'A'

/-- Six-bit value of an alphabet character; `none` for every other character
(including the padding character), which Node's lenient decoder skips. -/
def b64Index (c : Char) : Option Nat := b64Alphabet.indexOf? c

/-- Base64 encoding of a byte list, with padding; models
`buffer.toString("base64")`. -/
def base64Encode : List Nat → List Char
  | [] => []
  | [b0] => [b64Char (b0 / 4), b64Char (b0 % 4 * 16), '=', '=']
  | [b0, b1] => [b64Char (b0 / 4), b64Char (b0 % 4 * 16 + b1 / 16), b64Char (b1 % 16 * 4), '=']
  | b0 :: b1 :: b2 :: bs =>
    b64Char (b0 / 4) :: b64Char (b0 % 4 * 16 + b1 / 16) ::
    b64Char (b1 % 16 * 4 + b2 / 64) :: b64Char (b2 % 64) :: base64Encode bs

/-- Byte list from a list of six-bit values taken four at a time; a leftover
group of two or three sextets yields one or two bytes, a single leftover
sextet is dropped, as in Node's decoder. -/
def b64DecodeQuads : List Nat → List Nat
  | s0 :: s1 :: s2 :: s3 :: rest =>
    (s0 * 4 + s1 / 16) :: (s1 % 16 * 16 + s2 / 4) :: (s2 % 4 * 64 + s3) :: b64DecodeQuads rest
  | [s0, s1, s2] => [s0 * 4 + s1 / 16, s1 % 16 * 16 + s2 / 4]
  | [s0, s1] => [s0 * 4 + s1 / 16]
  | _ => []

/-- Lenient base64 decoding: every character outside the alphabet (padding
included) is skipped; models `Buffer.from(s, "base64")`, which never
throws. -/
def base64Decode (cs : List Char) : List Nat :=
  b64DecodeQuads (cs.filterMap b64Index)

/-! ### `JSON.parse` (platform model)

A recursive-descent parser for the JSON grammar.  `fuel` bounds the nesting
recursion; the top-level entry point supplies one unit of fuel per input
character plus one, which is always sufficient because every recursive call
follows the consumption of at least one character. -/

/-- JSON insignificant whitespace. -/
def isJsonWs (c : Char) : Bool :=
  c == ' ' || c == '\t' || c == '\n' || c == '\r'

def skipWs (s : List Char) : List Char := s.dropWhile isJsonWs

/-- Value of a hexadecimal digit character, either case. -/
def parseHexDigit (c : Char) : Option Nat :=
  if isDigitChar c then some (c.toNat - 48)
  else if 'a' ≤ c && c ≤ 'f' then some (c.toNat - 87)
  else if 'A' ≤ c && c ≤ 'F' then some (c.toNat - 55)
  else none

/-- Body of a JSON string literal after the opening quote: returns the
decoded characters and the input remaining after the closing quote.  Raw
control characters are rejected; the escape sequences are the eight
single-character escapes and `\uXXXX` (a `\uXXXX` value that is not a valid
scalar decodes through `Char.ofNat`'s default). -/
def parseStrBody : List Char → Option (List Char × List Char)
  | [] => none
  | c :: rest =>
    if c = '"' then some ([], rest)
    else if c = '\\' then
      match rest with
      | [] => none
      | e :: r2 =>
        if e = '"' then (parseStrBody r2).map (fun p => ('"' :: p.1, p.2))
        else if e = '\\' then (parseStrBody r2).map (fun p => ('\\' :: p.1, p.2))
        else if e = '/' then (parseStrBody r2).map (fun p => ('/' :: p.1, p.2))
        else if e = 'b' then (parseStrBody r2).map (fun p => ('\x08' :: p.1, p.2))
        else if e = 'f' then (parseStrBody r2).map (fun p => ('\x0c' :: p.1, p.2))
        else if e = 'n' then (parseStrBody r2).map (fun p => ('\n' :: p.1, p.2))
        else if e = 'r' then (parseStrBody r2).map (fun p => ('\r' :: p.1, p.2))
        else if e = 't' then (parseStrBody r2).map (fun p => ('\t' :: p.1, p.2))
        else if e = 'u' then
          match r2 with
          | h1 :: h2 :: h3 :: h4 :: r3 =>
            match parseHexDigit h1, parseHexDigit h2, parseHexDigit h3, parseHexDigit h4 with
            | some d1, some d2, some d3, some d4 =>
              (parseStrBody r3).map
                (fun p => (Char.ofNat (d1 * 4096 + d2 * 256 + d3 * 16 + d4) :: p.1, p.2))
            | _, _, _, _ => none
          | _ => none
        else none
    else if c.toNat < 0x20 then none
    else (parseStrBody rest).map (fun p => (c :: p.1, p.2))

/-- Optional exponent part of a JSON number; `lex` is the lexeme read so
far. -/
def parseExpPart (lex : List Char) (s : List Char) : Option (List Char × List Char) :=
  match s with
  | [] => some (lex, s)
  | c :: t =>
    if c = 'e' || c = 'E' then
      let sg : List Char × List Char :=
        match t with
        | [] => ([], t)
        | d :: u => if d = '+' || d = '-' then ([d], u) else ([], t)
      match sg.2 with
      | [] => none
      | d :: u =>
        if isDigitChar d then
          some (lex ++ c :: sg.1 ++ d :: u.takeWhile isDigitChar, u.dropWhile isDigitChar)
        else none
    else some (lex, s)

/-- Optional fraction part of a JSON number followed by the optional
exponent part. -/
def parseFracExp (lex : List Char) (s : List Char) : Option (List Char × List Char) :=
  match s with
  | [] => some (lex, s)
  | c :: t =>
    if c = '.' then
      match t with
      | [] => none
      | d :: u =>
        if isDigitChar d then
          parseExpPart (lex ++ c :: d :: u.takeWhile isDigitChar) (u.dropWhile isDigitChar)
        else none
    else parseExpPart lex s

/-- A JSON number: optional minus sign, integer part without leading zeros,
optional fraction, optional exponent.  Returns the lexeme and the rest. -/
def parseNumber (s : List Char) : Option (List Char × List Char) :=
  match s with
  | [] => none
  | c :: t =>
    if c = '-' then
      match t with
      | [] => none
      | c2 :: t2 =>
        if c2 = '0' then parseFracExp ['-', '0'] t2
        else if isDigitChar c2 then
          parseFracExp ('-' :: c2 :: t2.takeWhile isDigitChar) (t2.dropWhile isDigitChar)
        else none
    else if c = '0' then parseFracExp ['0'] t
    else if isDigitChar c then
      parseFracExp (c :: t.takeWhile isDigitChar) (t.dropWhile isDigitChar)
    else none

mutual

/-- One JSON value, leading whitespace allowed; returns the value and the
input remaining directly after it. -/
def parseValue : Nat → List Char → Option (Json × List Char)
  | 0, _ => none
  | f+1, s =>
    match skipWs s with
    | [] => none
    | c :: r =>
      if c = '{' then
        match skipWs r with
        | [] => none
        | c2 :: r2 =>
          if c2 = '}' then some (.obj [], r2)
          else (parseMembers f (c2 :: r2)).map (fun p => (.obj p.1, p.2))
      else if c = '[' then
        match skipWs r with
        | [] => none
        | c2 :: r2 =>
          if c2 = ']' then some (.arr [], r2)
          else (parseElems f (c2 :: r2)).map (fun p => (.arr p.1, p.2))
      else if c = '"' then (parseStrBody r).map (fun p => (.str p.1, p.2))
      else if c = 't' then
        match r with
        | 'r' :: 'u' :: 'e' :: r2 => some (.bool true, r2)
        | _ => none
      else if c = 'f' then
        match r with
        | 'a' :: 'l' :: 's' :: 'e' :: r2 => some (.bool false, r2)
        | _ => none
      else if c = 'n' then
        match r with
        | 'u' :: 'l' :: 'l' :: r2 => some (.null, r2)
        | _ => none
      else if c = '-' || isDigitChar c then
        (parseNumber (c :: r)).map (fun p => (Json.num p.1, p.2))
      else none

/-- The members of a JSON object after the opening brace, for a non-empty
member list; consumes the closing brace. -/
def parseMembers : Nat → List Char → Option (List (List Char × Json) × List Char)
  | 0, _ => none
  | f+1, s =>
    match skipWs s with
    | [] => none
    | c :: r =>
      if c = '"' then
        match parseStrBody r with
        | none => none
        | some (key, r2) =>
          match skipWs r2 with
          | [] => none
          | c2 :: r3 =>
            if c2 = ':' then
              match parseValue f r3 with
              | none => none
              | some (v, r4) =>
                match skipWs r4 with
                | [] => none
                | c3 :: r5 =>
                  if c3 = ',' then
                    (parseMembers f r5).map (fun p => ((key, v) :: p.1, p.2))
                  else if c3 = '}' then some ([(key, v)], r5)
                  else none
            else none
      else none

/-- The elements of a JSON array after the opening bracket, for a non-empty
element list; consumes the closing bracket. -/
def parseElems : Nat → List Char → Option (List Json × List Char)
  | 0, _ => none
  | f+1, s =>
    match parseValue f s with
    | none => none
    | some (v, r) =>
      match skipWs r with
      | [] => none
      | c :: r2 =>
        if c = ',' then (parseElems f r2).map (fun p => (v :: p.1, p.2))
        else if c = ']' then some ([v], r2)
        else none

end

/-- Complete `JSON.parse` model: one value, with only whitespace allowed
after it; `none` models the exception `JSON.parse` throws. -/
def jsonParse (s : List Char) : Option Json :=
  match parseValue (s.length + 1) s with
  | none => none
  | some (v, rest) => if skipWs rest = [] then some v else none

/-! ### Authority codec (`src/remotesView.ts`, `encode_remote_host` and
`decode_remote_host`) -/

/-- HostInfo record from `remotesView.ts`.  The `type` field is kept as a
string because the runtime value of a decoded token is not checked against
the declared union `"transient" | "configured"`. -/
structure HostInfo where
  type : JStr
  host : JStr
  port : Option Nat
deriving DecidableEq

def transientStr : JStr := "transient".toList
def configuredStr : JStr := "configured".toList

/-- The namespace marker prefixed by `encode_remote_host`. -/
def marker : List Char := ['r', 'e', 'm', 'o', 't', 'e', '-', 'o', 's', 's', '+']

/-- What `JSON.stringify(info)` produces for a `HostInfo` object built with
field order `type`, `host`, `port` (the order of every object literal the
source passes to `encode_remote_host`); the `port` member is omitted when
the field is absent. -/
def stringifyHostInfo (r : HostInfo) : List Char :=
  ['{', '"', 't', 'y', 'p', 'e', '"', ':'] ++ stringifyString r.type ++
  ([',', '"', 'h', 'o', 's', 't', '"', ':'] ++ stringifyString r.host) ++
  (match r.port with
   | none => []
   | some p => [',', '"', 'p', 'o', 'r', 't', '"', ':'] ++ natDigits p) ++
  ['}']

/-- The JSON value denoted by the same object. -/
def hostInfoJson (r : HostInfo) : Json :=
  .obj ((['t', 'y', 'p', 'e'], Json.str r.type) :: (['h', 'o', 's', 't'], Json.str r.host) ::
    (match r.port with
     | none => []
     | some p => [(['p', 'o', 'r', 't'], Json.num (natDigits p))]))

/-- `encode_remote_host` (remotesView.ts line 24): JSON, then base64, then
the marker in front. -/
def encode_remote_host (r : HostInfo) : List Char :=
  marker ++ base64Encode (utf8Encode (stringifyHostInfo r))

/-- Whether `p` is an initial segment of `s`. -/
def startsWith : List Char → List Char → Bool
  | [], _ => true
  | _ :: _, [] => false
  | p :: ps, c :: cs => p == c && startsWith ps cs

/-- Input remaining after `p` when `p` is an initial segment of the second
argument, `none` otherwise. -/
def stripStart : List Char → List Char → Option (List Char)
  | [], s => some s
  | _ :: _, [] => none
  | p :: ps, c :: cs => if p = c then stripStart ps cs else none

/-- First match of the unanchored pattern `remote-oss\+` : the input
remaining after the first occurrence of the marker, or `none` when the
marker occurs nowhere. -/
def findMarker : List Char → Option (List Char)
  | [] => none
  | c :: cs =>
    match stripStart marker (c :: cs) with
    | some suffix => some suffix
    | none => findMarker cs

/-- Result of `decode_remote_host`: `notRecognized` models the `undefined`
return when the regex does not match, `malformed` models the exception
`JSON.parse` throws on an unparsable payload, `ok j` models returning the
parsed value (which the source casts to `HostInfo` without any check). -/
inductive DecodeResult where
  | notRecognized
  | malformed
  | ok (j : Json)

/-- `decode_remote_host` (remotesView.ts line 30): match the unanchored
regex `/remote-oss\+(.*)/`; on a match, base64-decode the first capture
(`(.*)` takes every following character up to a line terminator), decode the
bytes as UTF-8 and run `JSON.parse` on the result. -/
def decode_remote_host (s : List Char) : DecodeResult :=
  match findMarker s with
  | none => .notRecognized
  | some suffix =>
    let b64 := suffix.takeWhile isDotChar
    match jsonParse (utf8Decode (base64Decode b64)) with
    | none => .malformed
    | some j => .ok j

/-- Last value bound to key `k` in a parsed object, as JavaScript property
semantics give it (with duplicate keys in the JSON text, the last wins). -/
def objGet (ms : List (List Char × Json)) (k : List Char) : Option Json :=
  (ms.reverse.find? (fun m => m.1 == k)).map (fun m => m.2)

/-- Reading a parsed JSON value back as the `HostInfo` record the source
cast produces, through the destructuring `{ type, host, port }` its consumer
applies: the object's `type` and `host` properties must be strings and the
optional `port` property a decimal integer for the value to denote a
`HostInfo` at all. -/
def readHostInfo : Json → Option HostInfo
  | .obj ms =>
    match objGet ms ['t', 'y', 'p', 'e'], objGet ms ['h', 'o', 's', 't'] with
    | some (.str t), some (.str h) =>
      match objGet ms ['p', 'o', 'r', 't'] with
      | none => some ⟨t, h, none⟩
      | some (.num lex) => some ⟨t, h, some (digitsToNat lex)⟩
      | some _ => none
    | _, _ => none
  | _ => none

/-- Decoding followed by reading the record's fields; the composite used to
state the round-trip law. -/
def decodeHostInfo (s : List Char) : Option HostInfo :=
  match decode_remote_host s with
  | .ok j => readHostInfo j
  | _ => none

/-- A valid host reference per the specification: the kind is transient or
configured, and a port is present exactly in the transient case. -/
def validHostInfo (r : HostInfo) : Prop :=
  (r.type = transientStr ∧ r.port.isSome = true) ∨
  (r.type = configuredStr ∧ r.port = none)

instance (r : HostInfo) : Decidable (validHostInfo r) := by
  unfold validHostInfo
  exact inferInstance

/-! ### Host registry (`src/remotesView.ts`, `RemotesDataProvider.readTree`)

The raw configuration record shape (`HostConfig` from `remotesConfig.ts`,
which only declares types) is modelled from the spec: each record carries a
`type` discriminator, `name`, `host`, `port`, an optional `connectionToken`
that may be a boolean or a string, and optional `folders` entries that are
either a bare path string or a `{name, path}` pair.  The `name` field is
modelled as a JavaScript value that may fail to be a string, because
`readTree` explicitly tests `typeof hostName !== "string"`. -/

/-- A JavaScript value that is either a string or something that is not a
string (only its stringness is ever inspected). -/
inductive JSVal where
  | str (s : JStr)
  | notStr
deriving DecidableEq, BEq

/-- The `type` discriminator of a raw host record: `HostKind.Manual` or any
other (future) kind, which `readTree` skips. -/
inductive RawKind where
  | manual
  | other
deriving DecidableEq, BEq

/-- The raw `connectionToken` configuration field. -/
inductive TokenField where
  | absent
  | bool (b : Bool)
  | str (s : JStr)
deriving DecidableEq

/-- One entry of the raw `folders` configuration list. -/
inductive RawFolder where
  | plain (path : JStr)
  | named (name : JStr) (path : JStr)
deriving DecidableEq

/-- Modelled from the spec: one raw host record of the `remote.OSS.hosts`
configuration list (the record type itself lives in `remotesConfig.ts`,
which is not part of the sources; the field list follows spec section 6). -/
structure RawHost where
  kind : RawKind
  name : JSVal
  host : JStr
  port : Nat
  connectionToken : TokenField
  folders : Option (List RawFolder)
deriving DecidableEq

/-- The `connectionToken` field after the normalization at remotesView.ts
lines 140-143: `if (!connectionToken && typeof connectionToken !==
"boolean") connectionToken = true` turns an absent value and the empty
string into `true` and keeps everything else. -/
inductive ConnToken where
  | bool (b : Bool)
  | str (s : JStr)
deriving DecidableEq

def normalizeToken : TokenField → ConnToken
  | .absent => .bool true
  | .bool b => .bool b
  | .str s => if s = [] then .bool true else .str s

/-- `FolderItem` (remotesView.ts line 57): label, host back-reference and
remote path. -/
structure FolderItem where
  label : JStr
  host : JStr
  path : JStr
deriving DecidableEq

/-- `PlainHostItem` (remotesView.ts line 69) together with the `HostBase`
state it inherits: `label` and `name` are both set to the constructor's
label argument, and `folders` collects the `addFolder` calls. -/
structure PlainHostItem where
  label : JSVal
  name : JSVal
  host : JStr
  port : Nat
  connectionToken : ConnToken
  folders : List FolderItem
deriving DecidableEq

/-- The folder loop of `readTree` (lines 148-166): for each raw folder
entry, take `hostName := hostItem.label`, skip the entry when that is not a
string, and otherwise build a `FolderItem` whose label and path come from
the entry (a bare string serves as both) and whose host is `hostName`. -/
def buildFolders (label : JSVal) (fs : List RawFolder) : List FolderItem :=
  fs.filterMap (fun f =>
    match label with
    | .notStr => none
    | .str hn =>
      match f with
      | .plain p => some ⟨p, hn, p⟩
      | .named n p => some ⟨n, hn, p⟩)

/-- The body of `readTree`'s per-host work for a record of the supported
kind: normalize the token field, build the `PlainHostItem`, attach the
folders. -/
def mkHostItem (h : RawHost) : PlainHostItem :=
  { label := h.name
    name := h.name
    host := h.host
    port := h.port
    connectionToken := normalizeToken h.connectionToken
    folders :=
      match h.folders with
      | none => []
      | some fs => buildFolders h.name fs }

/-- `readTree` (remotesView.ts line 130), observed through the flat host
list that `getHostList` later recovers from the tree: records whose `type`
is `HostKind.Manual` become `PlainHostItem`s in configuration order under
the single `manual` kind group; every other record is skipped.  (The
`KindItem` grouping layer adds no further state: the group is pushed exactly
when the host list is non-empty, and `getHostList` flattens it away.) -/
def readTree : List RawHost → List PlainHostItem
  | [] => []
  | h :: rest =>
    if h.kind = RawKind.manual then mkHostItem h :: readTree rest
    else readTree rest

/-- `resolveHost` (remotesView.ts line 249): filter the host list by strict
equality of the label with the looked-up name, throw `NotAvailable` (here
`none`) when nothing matches, and otherwise take element `0` of the filtered
list. -/
def resolveHostFn (hosts : List PlainHostItem) (label : JStr) : Option PlainHostItem :=
  match hosts.filter (fun h => decide (h.label = JSVal.str label)) with
  | [] => none
  | h :: _ => some h

/-! ### Resolver (`src/remotesView.ts`, `RemotesDataProvider.resolveAuthority`) -/

/-- The `vscode.ResolvedAuthority` value the resolver constructs.  The port
is kept optional because the transient path forwards `port!` unchecked, and
the token argument is optional. -/
structure ResolvedAuthority where
  host : JStr
  port : Option Nat
  token : Option JStr
deriving DecidableEq

/-- Outcome of one `resolveAuthority` call: success, the `NotAvailable`
throw from `resolveHost` (spec: `HostNotFound`), or the `no token specified`
throw (spec: `CredentialRequired`). -/
inductive ResolveOutcome where
  | ok (a : ResolvedAuthority)
  | hostNotFound
  | credentialRequired
deriving DecidableEq

/-- The `if (!token)` test applied to what `pickToken` returned: an absent
answer and the empty string both count as no token. -/
def tokenOrNone (t : Option JStr) : Option JStr :=
  match t with
  | none => none
  | some s => if s = [] then none else some s

/-- `resolveAuthority` (remotesView.ts line 262), over a host list and the
single interactive prompt answer of the resolution (`pickToken` is called at
most once per run; `prompt = none` models a dismissed input box).  Returns
the outcome together with the number of prompts issued.  A reference whose
`type` is exactly `"transient"` resolves to its own host and port with the
prompt answer as optional token; every other `type` takes the configured
path: look the label up, fail `hostNotFound` when absent, then follow the
normalized token field: `false` connects without a token, `true` demands a
prompted token and fails `credentialRequired` on `!token`, and a string is
used as the token directly with no prompt. -/
def resolveAuthority (hosts : List PlainHostItem) (prompt : Option JStr)
    (info : HostInfo) : ResolveOutcome × Nat :=
  if info.type = transientStr then
    (.ok ⟨info.host, info.port, tokenOrNone prompt⟩, 1)
  else
    match resolveHostFn hosts info.host with
    | none => (.hostNotFound, 0)
    | some h =>
      match h.connectionToken with
      | .bool false => (.ok ⟨h.host, some h.port, none⟩, 0)
      | .bool true =>
        match tokenOrNone prompt with
        | none => (.credentialRequired, 1)
        | some t => (.ok ⟨h.host, some h.port, some t⟩, 1)
      | .str s => (.ok ⟨h.host, some h.port, some s⟩, 0)

/-! ### Temporary host input (`src/extension.ts`,
`remote-oss.connectToTemporaryHost`, lines 113-136)

The command matches the entered text against
`/^\[([^\]]+)\]:(\d+)$|^([^:]+):(\d+)$/` and encodes a transient reference
from the captured host name and `parseInt` of the captured digits. -/

/-- The first regex alternative `^\[([^\]]+)\]:(\d+)$`: an opening bracket,
one or more non-`]` characters, `]:`, one or more digits, end of input. -/
def bracketBranch : List Char → Option (JStr × JStr)
  | [] => none
  | c :: rest =>
    if c = '[' then
      match rest.dropWhile (fun x => x != ']') with
      | _ :: c2 :: p =>
        if rest.takeWhile (fun x => x != ']') ≠ [] ∧
            (c2 = ':' ∧ (p ≠ [] ∧ p.all isDigitChar)) then
          some (rest.takeWhile (fun x => x != ']'), p)
        else none
      | _ => none
    else none

/-- The second regex alternative `^([^:]+):(\d+)$`: one or more non-colon
characters, a colon, one or more digits, end of input. -/
def plainBranch (s : List Char) : Option (JStr × JStr) :=
  match s.dropWhile (fun x => x != ':') with
  | _ :: p =>
    if s.takeWhile (fun x => x != ':') ≠ [] ∧ (p ≠ [] ∧ p.all isDigitChar) then
      some (s.takeWhile (fun x => x != ':'), p)
    else none
  | [] => none

/-- The whole pattern: the first alternative wins when it matches, otherwise
the second is tried.  Returns the two capture groups (host text, digit
text). -/
def parseHostPort (s : List Char) : Option (JStr × JStr) :=
  match bracketBranch s with
  | some r => some r
  | none => plainBranch s

/-- The `connectToTemporaryHost` command up to the `HostInfo` it encodes:
empty input and input the pattern rejects both surface an error message and
produce nothing; a match becomes a transient reference with `parseInt` of
the digit capture as port. -/
def connectToTemporaryHost (input : List Char) : Option HostInfo :=
  if input = [] then none
  else
    match parseHostPort input with
    | none => none
    | some (h, p) => some ⟨transientStr, h, some (digitsToNat p)⟩

/-- Stated from the spec's words (section 6): the two accepted free-text
forms, `hostname:port` and `[ipv6-literal]:port`, as explicit string
decompositions.  Used to compare the regex model against the spec. -/
def specTransientHostForm (s : List Char) : Prop :=
  (∃ h p, s = '[' :: h ++ ']' :: ':' :: p ∧ h ≠ [] ∧ (∀ c ∈ h, c ≠ ']') ∧
    p ≠ [] ∧ ∀ c ∈ p, isDigitChar c = true) ∨
  (∃ h p, s = h ++ ':' :: p ∧ h ≠ [] ∧ (∀ c ∈ h, c ≠ ':') ∧
    p ≠ [] ∧ ∀ c ∈ p, isDigitChar c = true)

/-! ## Helper lemmas -/

theorem tokenOrNone_ne_empty (t : Option JStr) : tokenOrNone t ≠ some [] := by
  match t with
  | none => simp [tokenOrNone]
  | some s =>
    by_cases hs : s = [] <;> simp [tokenOrNone, hs]

theorem resolveHostFn_mem {hosts : List PlainHostItem} {label : JStr} {h : PlainHostItem}
    (hr : resolveHostFn hosts label = some h) : h ∈ hosts := by
  unfold resolveHostFn at hr
  cases hf : hosts.filter (fun x => decide (x.label = JSVal.str label)) with
  | nil => rw [hf] at hr; exact absurd hr (by simp)
  | cons x t =>
    rw [hf] at hr
    have hx : x ∈ hosts := List.mem_of_mem_filter (hf ▸ List.mem_cons_self x t)
    cases hr
    exact hx

theorem readTree_mem {cfg : List RawHost} {h : PlainHostItem} (hm : h ∈ readTree cfg) :
    ∃ r ∈ cfg, r.kind = RawKind.manual ∧ h = mkHostItem r := by
  induction cfg with
  | nil => simp [readTree] at hm
  | cons hd tl ih =>
    unfold readTree at hm
    by_cases hk : hd.kind = RawKind.manual
    · rw [if_pos hk] at hm
      rcases List.mem_cons.mp hm with he | ht
      · exact ⟨hd, List.mem_cons_self hd tl, hk, he⟩
      · rcases ih ht with ⟨r, hr, hkr, hhr⟩
        exact ⟨r, List.mem_cons_of_mem hd hr, hkr, hhr⟩
    · rw [if_neg hk] at hm
      rcases ih hm with ⟨r, hr, hkr, hhr⟩
      exact ⟨r, List.mem_cons_of_mem hd hr, hkr, hhr⟩

theorem readTree_token_ne_empty {cfg : List RawHost} {h : PlainHostItem}
    (hm : h ∈ readTree cfg) {s : JStr} (ht : h.connectionToken = ConnToken.str s) :
    s ≠ [] := by
  rcases readTree_mem hm with ⟨r, _, _, rfl⟩
  intro hnil
  subst hnil
  cases hc : r.connectionToken with
  | absent => simp [mkHostItem, normalizeToken, hc] at ht
  | bool b => simp [mkHostItem, normalizeToken, hc] at ht
  | str u =>
    by_cases hu : u = []
    · simp [mkHostItem, normalizeToken, hc, hu] at ht
    · simp [mkHostItem, normalizeToken, hc, hu] at ht

theorem tokenOrNone_some_ne {p : Option JStr} {t : JStr} (h : tokenOrNone p = some t) :
    t ≠ [] := by
  intro hnil
  subst hnil
  exact tokenOrNone_ne_empty p h

theorem ok_pair_inj {x a : ResolvedAuthority} {k n : Nat}
    (h : ((ResolveOutcome.ok x, k) : ResolveOutcome × Nat) = (ResolveOutcome.ok a, n)) :
    a = x := by
  injection h with h1 h2
  injection h1 with h3
  exact h3.symm

/-! ## Claim C2 -/

/-- Configuration with two records sharing the name `a`; the first has port
1, the second port 2. -/
def dupNameConfig : List RawHost :=
  [⟨RawKind.manual, JSVal.str "a".toList, "h1".toList, 1, TokenField.absent, none⟩,
   ⟨RawKind.manual, JSVal.str "a".toList, "h2".toList, 2, TokenField.absent, none⟩]

/-- C2, counterexample: after a rebuild from a config with two records named
`a`, the registry holds two entries for that name (not at most one), and
resolving the name uses the first occurrence's port 1, not the last
occurrence's port 2. -/
theorem C2_counterexample :
    (readTree dupNameConfig).length = 2 ∧
    (∀ h ∈ readTree dupNameConfig, h.name = JSVal.str "a".toList) ∧
    (resolveHostFn (readTree dupNameConfig) "a".toList).map PlainHostItem.port = some 1 ∧
    (1 : Nat) ≠ 2 := by
  decide

/-- Unfolding of `resolveHostFn` over one list element. -/
theorem resolveHostFn_cons (x : PlainHostItem) (hs : List PlainHostItem) (label : JStr) :
    resolveHostFn (x :: hs) label =
      if x.label = JSVal.str label then some x else resolveHostFn hs label := by
  unfold resolveHostFn
  by_cases h : x.label = JSVal.str label
  · simp [List.filter, h]
  · simp [List.filter, h]

/-- C2 (amended): a registry rebuild keeps every record of the supported
kind, duplicates included, and resolving a configured name returns the item
built from the first record in config order whose kind is supported and
whose name matches; no error is raised on duplicates. -/
theorem C2_first_match_wins (cfg : List RawHost) (label : JStr) :
    resolveHostFn (readTree cfg) label =
      (cfg.find? (fun r => decide (r.kind = RawKind.manual) &&
        decide (r.name = JSVal.str label))).map mkHostItem := by
  induction cfg with
  | nil => simp [readTree, resolveHostFn]
  | cons hd tl ih =>
    unfold readTree
    by_cases hk : hd.kind = RawKind.manual
    · rw [if_pos hk, resolveHostFn_cons]
      by_cases hn : hd.name = JSVal.str label
      · rw [if_pos (by simp [mkHostItem, hn])]
        rw [List.find?_cons_of_pos _ (by simp [hk, hn])]
        simp
      · rw [if_neg (by simp [mkHostItem, hn])]
        rw [List.find?_cons_of_neg _ (by simp [hn])]
        exact ih
    · rw [if_neg hk]
      rw [List.find?_cons_of_neg _ (by simp [hk])]
      exact ih

/-! ## Claim C3 -/

/-- Configuration with a single host whose `connectionToken` is the empty
string. -/
def emptyTokConfig : List RawHost :=
  [⟨RawKind.manual, JSVal.str "a".toList, "1.2.3.4".toList, 22, TokenField.str [], none⟩]

/-- C3, counterexample: the empty string is a literal string, yet the
registry derives `AlwaysPrompt` (the normalized value `true`) for it rather
than a fixed token, and resolving the host with a dismissed prompt fails
after one prompt instead of returning the empty token with zero prompts. -/
theorem C3_counterexample :
    normalizeToken (TokenField.str []) = ConnToken.bool true ∧
    ConnToken.bool true ≠ ConnToken.str [] ∧
    resolveAuthority (readTree emptyTokConfig) none ⟨configuredStr, "a".toList, none⟩ =
      (ResolveOutcome.credentialRequired, 1) := by
  decide

/-- C3 (amended): the registry derives the credential policy as: absent
field and boolean `true` give always-prompt (normalized `true`), boolean
`false` gives never-prompt (normalized `false`), and a non-empty literal
string `s` gives the fixed token `s` (the empty string is normalized to
always-prompt); in the fixed-token case resolution returns token `s` with
zero prompts issued. -/
theorem C3_policy (hosts : List PlainHostItem) (prompt : Option JStr) (label : JStr)
    (h : PlainHostItem) (s : JStr)
    (hres : resolveHostFn hosts label = some h)
    (htok : h.connectionToken = ConnToken.str s) :
    normalizeToken TokenField.absent = ConnToken.bool true ∧
    normalizeToken (TokenField.bool false) = ConnToken.bool false ∧
    normalizeToken (TokenField.bool true) = ConnToken.bool true ∧
    (∀ u : JStr, u ≠ [] → normalizeToken (TokenField.str u) = ConnToken.str u) ∧
    resolveAuthority hosts prompt ⟨configuredStr, label, none⟩ =
      (ResolveOutcome.ok ⟨h.host, some h.port, some s⟩, 0) := by
  refine ⟨rfl, rfl, rfl, ?_, ?_⟩
  · intro u hu
    simp [normalizeToken, hu]
  · have hne : configuredStr ≠ transientStr := by decide
    simp [resolveAuthority, hne, hres, htok]

/-- The spec's own fixed-token example: one host named `a` with token
`secret`. -/
def secretConfig : List RawHost :=
  [⟨RawKind.manual, JSVal.str "a".toList, "1.2.3.4".toList, 22,
    TokenField.str "secret".toList, none⟩]

theorem C3_policy_witness :
    resolveHostFn (readTree secretConfig) "a".toList =
      some ⟨JSVal.str "a".toList, JSVal.str "a".toList, "1.2.3.4".toList, 22,
        ConnToken.str "secret".toList, []⟩ ∧
    resolveAuthority (readTree secretConfig) none ⟨configuredStr, "a".toList, none⟩ =
      (ResolveOutcome.ok ⟨"1.2.3.4".toList, some 22, some "secret".toList⟩, 0) :=
  ⟨by decide,
   (C3_policy (readTree secretConfig) none "a".toList
     ⟨JSVal.str "a".toList, JSVal.str "a".toList, "1.2.3.4".toList, 22,
       ConnToken.str "secret".toList, []⟩ "secret".toList
     (by decide) (by decide)).2.2.2.2⟩

/-! ## Claim C5 -/

/-- C5: resolving a transient reference never fails: whatever the host list
and whatever the prompt answers (including a dismissed prompt), the result
is a successful authority carrying the reference's own host and port and the
prompt's answer as optional token; a dismissed prompt simply yields a
token-less result. -/
theorem C5_transient_never_fails (hosts : List PlainHostItem) (prompt : Option JStr)
    (info : HostInfo) (ht : info.type = transientStr) :
    resolveAuthority hosts prompt info =
      (ResolveOutcome.ok ⟨info.host, info.port, tokenOrNone prompt⟩, 1) ∧
    tokenOrNone none = (none : Option JStr) := by
  constructor
  · simp [resolveAuthority, ht]
  · rfl

theorem C5_transient_never_fails_witness :
    (⟨transientStr, "x".toList, some 22⟩ : HostInfo).type = transientStr ∧
    resolveAuthority [] none ⟨transientStr, "x".toList, some 22⟩ =
      (ResolveOutcome.ok ⟨"x".toList, some 22, none⟩, 1) :=
  ⟨rfl, (C5_transient_never_fails [] none ⟨transientStr, "x".toList, some 22⟩ rfl).1⟩

/-! ## Claim C6 -/

/-- C6: a configured reference whose registry entry carries the normalized
always-prompt policy fails with `credentialRequired` (the `no token
specified` throw) when the prompt is dismissed; no authority is produced. -/
theorem C6_always_prompt_fails_without_token (hosts : List PlainHostItem) (label : JStr)
    (p : Option Nat) (h : PlainHostItem)
    (hres : resolveHostFn hosts label = some h)
    (htok : h.connectionToken = ConnToken.bool true) :
    resolveAuthority hosts none ⟨configuredStr, label, p⟩ =
      (ResolveOutcome.credentialRequired, 1) := by
  have hne : configuredStr ≠ transientStr := by decide
  simp [resolveAuthority, hne, hres, htok, tokenOrNone]

/-- The spec's own example: one host named `a` with the token field absent
(normalized to always-prompt). -/
def absentTokConfig : List RawHost :=
  [⟨RawKind.manual, JSVal.str "a".toList, "1.2.3.4".toList, 22, TokenField.absent, none⟩]

theorem C6_always_prompt_fails_without_token_witness :
    resolveHostFn (readTree absentTokConfig) "a".toList =
      some ⟨JSVal.str "a".toList, JSVal.str "a".toList, "1.2.3.4".toList, 22,
        ConnToken.bool true, []⟩ ∧
    resolveAuthority (readTree absentTokConfig) none ⟨configuredStr, "a".toList, none⟩ =
      (ResolveOutcome.credentialRequired, 1) :=
  ⟨by decide,
   C6_always_prompt_fails_without_token (readTree absentTokConfig) "a".toList none
     ⟨JSVal.str "a".toList, JSVal.str "a".toList, "1.2.3.4".toList, 22,
       ConnToken.bool true, []⟩ (by decide) (by decide)⟩

/-! ## Claim C9 -/

/-- C9: a successful resolution over a registry built by `readTree` never
carries the empty string as token: the token is absent or non-empty, because
`!token` sends an empty prompt answer to "no token" on both prompting paths
and the registry normalizes an empty `connectionToken` away before it can
become a fixed token. -/
theorem C9_token_never_empty (cfg : List RawHost) (prompt : Option JStr)
    (info : HostInfo) (a : ResolvedAuthority) (n : Nat)
    (hres : resolveAuthority (readTree cfg) prompt info = (ResolveOutcome.ok a, n)) :
    a.token ≠ some [] := by
  unfold resolveAuthority at hres
  by_cases ht : info.type = transientStr
  · rw [if_pos ht] at hres
    have ha := ok_pair_inj hres
    subst ha
    exact tokenOrNone_ne_empty prompt
  · rw [if_neg ht] at hres
    cases hr : resolveHostFn (readTree cfg) info.host with
    | none => simp only [hr] at hres; exact absurd hres (by simp)
    | some h =>
      simp only [hr] at hres
      cases hc : h.connectionToken with
      | bool b =>
        simp only [hc] at hres
        cases b with
        | false =>
          have ha := ok_pair_inj hres
          subst ha
          simp
        | true =>
          cases hp : tokenOrNone prompt with
          | none => simp only [hp] at hres; exact absurd hres (by simp)
          | some t =>
            simp only [hp] at hres
            have ha := ok_pair_inj hres
            subst ha
            simpa using tokenOrNone_some_ne hp
      | str s =>
        simp only [hc] at hres
        have ha := ok_pair_inj hres
        subst ha
        simpa using readTree_token_ne_empty (resolveHostFn_mem hr) hc

theorem C9_token_never_empty_witness :
    resolveAuthority (readTree secretConfig) none ⟨configuredStr, "a".toList, none⟩ =
      (ResolveOutcome.ok ⟨"1.2.3.4".toList, some 22, some "secret".toList⟩, 0) ∧
    (⟨"1.2.3.4".toList, some 22, some "secret".toList⟩ : ResolvedAuthority).token ≠ some [] :=
  ⟨by decide,
   C9_token_never_empty secretConfig none ⟨configuredStr, "a".toList, none⟩
     ⟨"1.2.3.4".toList, some 22, some "secret".toList⟩ 0 (by decide)⟩

/-! ## Claim C10 -/

/-- C10: every folder attached by a registry rebuild carries as its `host`
back-reference exactly the name of the host item that owns it; in
particular, folders are only ever attached when that name is a string (a
non-string host name makes the loop skip the folder entry). -/
theorem C10_folder_backref (cfg : List RawHost) (h : PlainHostItem) (f : FolderItem)
    (hm : h ∈ readTree cfg) (hf : f ∈ h.folders) :
    h.name = JSVal.str f.host := by
  rcases readTree_mem hm with ⟨r, -, -, rfl⟩
  simp only [mkHostItem] at hf ⊢
  cases hfs : r.folders with
  | none => rw [hfs] at hf; simp at hf
  | some fs =>
    rw [hfs] at hf
    simp only [buildFolders, List.mem_filterMap] at hf
    rcases hf with ⟨x, -, hx⟩
    cases hn : r.name with
    | notStr => rw [hn] at hx; cases x <;> simp at hx
    | str hn' =>
      rw [hn] at hx
      cases x with
      | plain p =>
        simp only [Option.some.injEq] at hx
        rw [← hx]
      | named nm p =>
        simp only [Option.some.injEq] at hx
        rw [← hx]

/-- Configuration with one host named `a` carrying a bare-string folder and
a named folder. -/
def foldersConfig : List RawHost :=
  [⟨RawKind.manual, JSVal.str "a".toList, "h".toList, 1, TokenField.absent,
    some [RawFolder.plain "p".toList, RawFolder.named "n".toList "q".toList]⟩]

theorem C10_folder_backref_witness :
    (⟨JSVal.str "a".toList, JSVal.str "a".toList, "h".toList, 1, ConnToken.bool true,
      [⟨"p".toList, "a".toList, "p".toList⟩, ⟨"n".toList, "a".toList, "q".toList⟩]⟩ :
        PlainHostItem) ∈ readTree foldersConfig ∧
    (⟨"p".toList, "a".toList, "p".toList⟩ : FolderItem) ∈
      (⟨JSVal.str "a".toList, JSVal.str "a".toList, "h".toList, 1, ConnToken.bool true,
        [⟨"p".toList, "a".toList, "p".toList⟩, ⟨"n".toList, "a".toList, "q".toList⟩]⟩ :
          PlainHostItem).folders ∧
    (⟨JSVal.str "a".toList, JSVal.str "a".toList, "h".toList, 1, ConnToken.bool true,
      [⟨"p".toList, "a".toList, "p".toList⟩, ⟨"n".toList, "a".toList, "q".toList⟩]⟩ :
        PlainHostItem).name =
      JSVal.str (⟨"p".toList, "a".toList, "p".toList⟩ : FolderItem).host :=
  ⟨by decide, by decide,
   C10_folder_backref foldersConfig _ _ (by decide) (by decide)⟩

/-! ## Claim C7 -/

theorem takeWhile_append_eq {p : Char → Bool} (h : List Char) (b : Char) (t : List Char)
    (hh : ∀ c ∈ h, p c = true) (hb : p b = false) :
    ((h ++ b :: t).takeWhile p = h) ∧ ((h ++ b :: t).dropWhile p = b :: t) := by
  induction h with
  | nil =>
    simp [List.takeWhile_cons, List.dropWhile_cons, hb]
  | cons c h' ih =>
    have hc : p c = true := hh c (List.mem_cons_self c h')
    have ih' := ih (fun x hx => hh x (List.mem_cons_of_mem c hx))
    simp only [List.cons_append, List.takeWhile_cons, List.dropWhile_cons, hc, if_true]
    exact ⟨by rw [ih'.1], by rw [ih'.2]⟩

theorem dropWhile_head_false {p : Char → Bool} {l : List Char} {b : Char} {t : List Char}
    (h : l.dropWhile p = b :: t) : p b = false := by
  induction l with
  | nil => simp [List.dropWhile] at h
  | cons c l' ih =>
    by_cases pc : p c = true
    · rw [List.dropWhile_cons_of_pos pc] at h
      exact ih h
    · have pc' : p c = false := by simpa using pc
      rw [List.dropWhile_cons_of_neg (by simp [pc'])] at h
      injection h with hb ht
      subst hb
      exact pc'

theorem bracketBranch_sound {s : List Char} {h p : JStr}
    (hb : bracketBranch s = some (h, p)) :
    s = '[' :: h ++ ']' :: ':' :: p ∧ h ≠ [] ∧ (∀ c ∈ h, c ≠ ']') ∧
      p ≠ [] ∧ ∀ c ∈ p, isDigitChar c = true := by
  unfold bracketBranch at hb
  split at hb
  · simp at hb
  next c rest =>
    split at hb
    next hc =>
      subst hc
      split at hb
      next d c2 p' hd =>
        split at hb
        next hg =>
          simp only [Option.some.injEq, Prod.mk.injEq] at hb
          obtain ⟨hh, hp⟩ := hb
          subst hp
          obtain ⟨hty, hc2, hpne, hdig⟩ := hg
          subst hc2
          have hdeq : d = ']' := by
            have := dropWhile_head_false hd
            simpa using this
          subst hdeq
          subst hh
          refine ⟨?_, hty, ?_, hpne, ?_⟩
          · have hsplit := List.takeWhile_append_dropWhile
              (p := fun x => x != ']') (l := rest)
            rw [hd] at hsplit
            rw [List.cons_append, hsplit]
          · intro x hx
            have := List.mem_takeWhile_imp hx
            simpa using this
          · intro x hx
            exact List.all_eq_true.mp hdig x hx
        · simp at hb
      · simp at hb
    · simp at hb

theorem plainBranch_sound {s : List Char} {h p : JStr}
    (hb : plainBranch s = some (h, p)) :
    s = h ++ ':' :: p ∧ h ≠ [] ∧ (∀ c ∈ h, c ≠ ':') ∧
      p ≠ [] ∧ ∀ c ∈ p, isDigitChar c = true := by
  unfold plainBranch at hb
  split at hb
  next d p' hd =>
    split at hb
    next hg =>
      simp only [Option.some.injEq, Prod.mk.injEq] at hb
      obtain ⟨hh, hp⟩ := hb
      subst hp
      obtain ⟨hty, hpne, hdig⟩ := hg
      have hdeq : d = ':' := by
        have := dropWhile_head_false hd
        simpa using this
      subst hdeq
      subst hh
      refine ⟨?_, hty, ?_, hpne, ?_⟩
      · have hsplit := List.takeWhile_append_dropWhile
          (p := fun x => x != ':') (l := s)
        rw [hd] at hsplit
        rw [hsplit]
      · intro x hx
        have := List.mem_takeWhile_imp hx
        simpa using this
      · intro x hx
        exact List.all_eq_true.mp hdig x hx
    · simp at hb
  · simp at hb

theorem bracketBranch_complete {h p : JStr} (hh : h ≠ []) (hnz : ∀ c ∈ h, c ≠ ']')
    (hpne : p ≠ []) (hdig : ∀ c ∈ p, isDigitChar c = true) :
    bracketBranch ('[' :: h ++ ']' :: ':' :: p) = some (h, p) := by
  have hsplit := takeWhile_append_eq (p := fun x => x != ']') h ']' (':' :: p)
    (fun c hc => by simpa using hnz c hc) (by simp)
  rw [List.cons_append]
  simp only [bracketBranch]
  rw [if_pos trivial, hsplit.2]
  simp [hsplit.1, hh, hpne, List.all_eq_true.mpr hdig]

theorem plainBranch_complete {h p : JStr} (hh : h ≠ []) (hnz : ∀ c ∈ h, c ≠ ':')
    (hpne : p ≠ []) (hdig : ∀ c ∈ p, isDigitChar c = true) :
    plainBranch (h ++ ':' :: p) = some (h, p) := by
  have hsplit := takeWhile_append_eq (p := fun x => x != ':') h ':' p
    (fun c hc => by simpa using hnz c hc) (by simp)
  simp only [plainBranch]
  rw [hsplit.2]
  simp [hsplit.1, hh, hpne, List.all_eq_true.mpr hdig]

theorem parseHostPort_iff (s : List Char) :
    (parseHostPort s).isSome = true ↔ specTransientHostForm s := by
  constructor
  · intro hs
    unfold parseHostPort at hs
    cases hb : bracketBranch s with
    | some r =>
      rcases r with ⟨h, p⟩
      rcases bracketBranch_sound hb with ⟨hse, hh, hnz, hpne, hdig⟩
      exact Or.inl ⟨h, p, hse, hh, hnz, hpne, hdig⟩
    | none =>
      rw [hb] at hs
      cases hp : plainBranch s with
      | some r =>
        rcases r with ⟨h, p⟩
        rcases plainBranch_sound hp with ⟨hse, hh, hnz, hpne, hdig⟩
        exact Or.inr ⟨h, p, hse, hh, hnz, hpne, hdig⟩
      | none => rw [hp] at hs; simp at hs
  · intro hs
    rcases hs with ⟨h, p, hse, hh, hnz, hpne, hdig⟩ | ⟨h, p, hse, hh, hnz, hpne, hdig⟩
    · subst hse
      unfold parseHostPort
      rw [bracketBranch_complete hh hnz hpne hdig]
      rfl
    · subst hse
      unfold parseHostPort
      cases hb : bracketBranch (h ++ ':' :: p) with
      | some r => rfl
      | none => rw [plainBranch_complete hh hnz hpne hdig]; rfl

/-- C7: the free-text transient-host input accepts exactly the two spec
forms `hostname:port` and `[ipv6-literal]:port` (with the host segment
non-empty and free of the closing delimiter, and the port one or more
digits): `example.com:22` parses to host `example.com` and port 22,
`[::1]:2222` parses to host `::1` and port 2222, `bad-input` is rejected
with nothing produced, and in general the pattern matches an input exactly
when it decomposes into one of the two spec forms. -/
theorem C7_transient_input_parse :
    connectToTemporaryHost "example.com:22".toList =
      some ⟨transientStr, "example.com".toList, some 22⟩ ∧
    connectToTemporaryHost "[::1]:2222".toList =
      some ⟨transientStr, "::1".toList, some 2222⟩ ∧
    connectToTemporaryHost "bad-input".toList = none ∧
    ∀ s : List Char, (parseHostPort s).isSome = true ↔ specTransientHostForm s :=
  ⟨by decide, by decide, by decide, parseHostPort_iff⟩

/-! ## Claim C8 -/

/-- An input that does not begin with the marker: three junk characters,
then the marker, then the base64 payload of
`{"type":"configured","host":"a"}`. -/
def sneakyInput : List Char :=
  "zz!remote-oss+eyJ0eXBlIjoiY29uZmlndXJlZCIsImhvc3QiOiJhIn0=".toList

/-- C8: the decode pattern is unanchored: there is an input that does not
begin with the namespace marker, yet decodes to a host reference, because
the regex finds the marker's first occurrence anywhere in the string and the
capture takes everything after it. -/
theorem C8_unanchored_marker :
    startsWith marker sneakyInput = false ∧
    decodeHostInfo sneakyInput = some ⟨configuredStr, "a".toList, none⟩ := by
  exact ⟨by decide, by decide⟩

/-! ## Claim C4 -/

/-- The marker followed by the base64 payload `e30=`, which decodes to the
JSON text `{}`: valid JSON, but not a host reference. -/
def curlyInput : List Char := "remote-oss+e30=".toList

/-- C4, counterexample: an input carrying the marker whose payload is not a
well-formed host reference (it decodes to the JSON object `{}`, which has
neither a `type` nor a `host` property) is not a hard failure: decode
silently returns the parsed value. -/
theorem C4_counterexample :
    decode_remote_host curlyInput = DecodeResult.ok (Json.obj []) ∧
    readHostInfo (Json.obj []) = none ∧
    DecodeResult.ok (Json.obj []) ≠ DecodeResult.malformed :=
  ⟨rfl, rfl, fun h => DecodeResult.noConfusion h⟩

/-- C4 (amended): for every input that carries the namespace marker, decode
fails hard (an error distinct from the `not recognized` result) exactly when
the captured payload does not parse as JSON after base64 and UTF-8 decoding;
a payload that parses as JSON is returned without any shape validation, even
when it is not a well-formed host reference. -/
theorem C4_malformed_payload_hard_failure (s suffix : List Char)
    (hm : findMarker s = some suffix)
    (hp : jsonParse (utf8Decode (base64Decode (suffix.takeWhile isDotChar))) = none) :
    decode_remote_host s = DecodeResult.malformed ∧
    DecodeResult.malformed ≠ DecodeResult.notRecognized := by
  constructor
  · unfold decode_remote_host
    rw [hm]
    simp only [hp]
  · intro h
    exact DecodeResult.noConfusion h

theorem C4_malformed_payload_hard_failure_witness :
    decode_remote_host "remote-oss+".toList = DecodeResult.malformed ∧
    DecodeResult.malformed ≠ DecodeResult.notRecognized :=
  C4_malformed_payload_hard_failure "remote-oss+".toList [] (by rfl) (by rfl)

/-! ## Round-trip lemmas for the codec pipeline (claim C1) -/

theorem b64Index_b64Char {i : Nat} (h : i < 64) : b64Index (b64Char i) = some i := by
  have H : ∀ j, j < 64 → b64Index (b64Char j) = some j := by decide
  exact H i h

theorem b64Index_pad : b64Index '=' = none := by decide

theorem base64_roundtrip (bs : List Nat) (hb : ∀ b ∈ bs, b < 256) :
    base64Decode (base64Encode bs) = bs := by
  induction bs using base64Encode.induct with
  | case1 => rfl
  | case2 b0 =>
    have h0 : b0 < 256 := hb b0 (by simp)
    have h1 : b64Index (b64Char (b0 / 4)) = some (b0 / 4) := b64Index_b64Char (by omega)
    have h2 : b64Index (b64Char (b0 % 4 * 16)) = some (b0 % 4 * 16) :=
      b64Index_b64Char (by omega)
    simp only [base64Encode, base64Decode, List.filterMap_cons, h1, h2, b64Index_pad,
      List.filterMap_nil, b64DecodeQuads]
    simp only [List.cons.injEq, and_true]
    omega
  | case3 b0 b1 =>
    have h0 : b0 < 256 := hb b0 (by simp)
    have h0' : b1 < 256 := hb b1 (by simp)
    have h1 : b64Index (b64Char (b0 / 4)) = some (b0 / 4) := b64Index_b64Char (by omega)
    have h2 : b64Index (b64Char (b0 % 4 * 16 + b1 / 16)) = some (b0 % 4 * 16 + b1 / 16) :=
      b64Index_b64Char (by omega)
    have h3 : b64Index (b64Char (b1 % 16 * 4)) = some (b1 % 16 * 4) :=
      b64Index_b64Char (by omega)
    simp only [base64Encode, base64Decode, List.filterMap_cons, h1, h2, h3, b64Index_pad,
      List.filterMap_nil, b64DecodeQuads]
    simp only [List.cons.injEq, and_true]
    omega
  | case4 b0 b1 b2 bs ih =>
    have h0 : b0 < 256 := hb b0 (by simp)
    have h0' : b1 < 256 := hb b1 (by simp)
    have h0'' : b2 < 256 := hb b2 (by simp)
    have ih' := ih (fun b hm => hb b (by simp [hm]))
    have h1 : b64Index (b64Char (b0 / 4)) = some (b0 / 4) := b64Index_b64Char (by omega)
    have h2 : b64Index (b64Char (b0 % 4 * 16 + b1 / 16)) = some (b0 % 4 * 16 + b1 / 16) :=
      b64Index_b64Char (by omega)
    have h3 : b64Index (b64Char (b1 % 16 * 4 + b2 / 64)) = some (b1 % 16 * 4 + b2 / 64) :=
      b64Index_b64Char (by omega)
    have h4 : b64Index (b64Char (b2 % 64)) = some (b2 % 64) := b64Index_b64Char (by omega)
    simp only [base64Encode, base64Decode, List.filterMap_cons, h1, h2, h3, h4,
      b64DecodeQuads] at ih' ⊢
    rw [ih']
    simp only [List.cons.injEq]
    refine ⟨by omega, by omega, by omega, trivial⟩

theorem char_valid_nat (c : Char) :
    c.toNat < 0xd800 ∨ (0xdfff < c.toNat ∧ c.toNat < 0x110000) := by
  have h := c.valid
  unfold UInt32.isValidChar at h
  unfold Nat.isValidChar at h
  exact h

theorem utf8EncodeChar_lt (c : Char) : ∀ b ∈ utf8EncodeChar c, b < 256 := by
  intro b hb
  have hv := char_valid_nat c
  have hub : c.toNat < 0x110000 := by rcases hv with h | h <;> omega
  unfold utf8EncodeChar at hb
  by_cases h1 : c.toNat < 0x80
  · rw [if_pos h1] at hb
    simp only [List.mem_singleton] at hb
    omega
  · rw [if_neg h1] at hb
    by_cases h2 : c.toNat < 0x800
    · rw [if_pos h2] at hb
      simp only [List.mem_cons, List.not_mem_nil, or_false] at hb
      rcases hb with h | h <;> omega
    · rw [if_neg h2] at hb
      by_cases h3 : c.toNat < 0x10000
      · rw [if_pos h3] at hb
        simp only [List.mem_cons, List.not_mem_nil, or_false] at hb
        rcases hb with h | h | h <;> omega
      · rw [if_neg h3] at hb
        simp only [List.mem_cons, List.not_mem_nil, or_false] at hb
        rcases hb with h | h | h | h <;> omega

theorem utf8DecodeAux_congr :
    ∀ f g bs, bs.length < f → bs.length < g → utf8DecodeAux f bs = utf8DecodeAux g bs := by
  intro f
  induction f with
  | zero => intro g bs h1 h2; omega
  | succ f ih =>
    intro g bs h1 h2
    cases g with
    | zero => omega
    | succ g =>
      cases bs with
      | nil => rfl
      | cons b bs =>
        rw [utf8DecodeAux, utf8DecodeAux]
        have hdl : (bs.drop (utf8Step b bs).2).length ≤ bs.length := by
          simp [List.length_drop]
        simp only [List.length_cons] at h1 h2
        rw [ih g (bs.drop (utf8Step b bs).2) (by omega) (by omega)]

theorem utf8_decode_encode_cons (c : Char) (bs : List Nat) :
    utf8Decode (utf8EncodeChar c ++ bs) = c :: utf8Decode bs := by
  have hv := char_valid_nat c
  have hub : c.toNat < 0x110000 := by rcases hv with h | h <;> omega
  have hofn := Char.ofNat_toNat c
  unfold utf8EncodeChar
  by_cases h1 : c.toNat < 0x80
  · rw [if_pos h1]
    simp only [List.cons_append, List.nil_append]
    have hstep : utf8Step c.toNat bs = (c, 0) := by
      unfold utf8Step
      rw [if_pos h1, hofn]
    unfold utf8Decode
    simp only [List.length_cons]
    rw [utf8DecodeAux, hstep]
    simp only [List.drop_zero]
  · rw [if_neg h1]
    by_cases h2 : c.toNat < 0x800
    · rw [if_pos h2]
      simp only [List.cons_append, List.nil_append]
      have hstep : utf8Step (0xC0 + c.toNat / 64) ((0x80 + c.toNat % 64) :: bs) = (c, 1) := by
        unfold utf8Step
        rw [if_neg (by omega), if_neg (by omega), if_pos (by omega)]
        simp only []
        have hcont : isCont (0x80 + c.toNat % 64) = true := by
          simp only [isCont, Bool.and_eq_true, decide_eq_true_eq]
          omega
        rw [if_pos hcont]
        have harith : (0xC0 + c.toNat / 64 - 0xC0) * 64 + (0x80 + c.toNat % 64 - 0x80) =
            c.toNat := by omega
        rw [harith, hofn]
      unfold utf8Decode
      simp only [List.length_cons]
      rw [utf8DecodeAux, hstep]
      simp only [List.drop_succ_cons, List.drop_zero]
      rw [utf8DecodeAux_congr (bs.length + 1 + 1) (bs.length + 1) bs (by omega) (by omega)]
    · rw [if_neg h2]
      by_cases h3 : c.toNat < 0x10000
      · rw [if_pos h3]
        simp only [List.cons_append, List.nil_append]
        have hstep : utf8Step (0xE0 + c.toNat / 4096)
            ((0x80 + c.toNat / 64 % 64) :: (0x80 + c.toNat % 64) :: bs) = (c, 2) := by
          unfold utf8Step
          rw [if_neg (by omega), if_neg (by omega), if_neg (by omega), if_pos (by omega)]
          simp only []
          have hcont1 : isCont (0x80 + c.toNat / 64 % 64) = true := by
            simp only [isCont, Bool.and_eq_true, decide_eq_true_eq]
            omega
          have hcont2 : isCont (0x80 + c.toNat % 64) = true := by
            simp only [isCont, Bool.and_eq_true, decide_eq_true_eq]
            omega
          rw [if_pos hcont1, if_pos hcont2]
          have harith : (0xE0 + c.toNat / 4096 - 0xE0) * 4096 +
              (0x80 + c.toNat / 64 % 64 - 0x80) * 64 + (0x80 + c.toNat % 64 - 0x80) =
              c.toNat := by omega
          rw [harith]
          rw [if_neg (by rcases hv with h | h <;> omega), hofn]
        unfold utf8Decode
        simp only [List.length_cons]
        rw [utf8DecodeAux, hstep]
        simp only [List.drop_succ_cons, List.drop_zero]
        rw [utf8DecodeAux_congr (bs.length + 1 + 1 + 1) (bs.length + 1) bs
          (by omega) (by omega)]
      · rw [if_neg h3]
        simp only [List.cons_append, List.nil_append]
        have hstep : utf8Step (0xF0 + c.toNat / 0x40000)
            ((0x80 + c.toNat / 4096 % 64) :: (0x80 + c.toNat / 64 % 64) ::
              (0x80 + c.toNat % 64) :: bs) = (c, 3) := by
          unfold utf8Step
          rw [if_neg (by omega), if_neg (by omega), if_neg (by omega), if_neg (by omega),
            if_pos (by omega)]
          simp only []
          have hcont1 : isCont (0x80 + c.toNat / 4096 % 64) = true := by
            simp only [isCont, Bool.and_eq_true, decide_eq_true_eq]
            omega
          have hcont2 : isCont (0x80 + c.toNat / 64 % 64) = true := by
            simp only [isCont, Bool.and_eq_true, decide_eq_true_eq]
            omega
          have hcont3 : isCont (0x80 + c.toNat % 64) = true := by
            simp only [isCont, Bool.and_eq_true, decide_eq_true_eq]
            omega
          rw [if_pos hcont1, if_pos hcont2, if_pos hcont3]
          have harith : (0xF0 + c.toNat / 0x40000 - 0xF0) * 0x40000 +
              (0x80 + c.toNat / 4096 % 64 - 0x80) * 4096 +
              (0x80 + c.toNat / 64 % 64 - 0x80) * 64 + (0x80 + c.toNat % 64 - 0x80) =
              c.toNat := by omega
          rw [harith]
          rw [if_neg (by omega), hofn]
        unfold utf8Decode
        simp only [List.length_cons]
        rw [utf8DecodeAux, hstep]
        simp only [List.drop_succ_cons, List.drop_zero]
        rw [utf8DecodeAux_congr (bs.length + 1 + 1 + 1 + 1) (bs.length + 1) bs
          (by omega) (by omega)]
theorem utf8_roundtrip (s : List Char) : utf8Decode (utf8Encode s) = s := by
  induction s with
  | nil => rfl
  | cons c cs ih =>
    unfold utf8Encode
    rw [List.flatMap_cons]
    have : utf8Decode (utf8EncodeChar c ++ cs.flatMap utf8EncodeChar) =
        c :: utf8Decode (cs.flatMap utf8EncodeChar) := utf8_decode_encode_cons c _
    rw [this]
    unfold utf8Encode at ih
    rw [ih]

theorem digitChar_toNat {n : Nat} (h : n < 10) : (digitChar n).toNat = 48 + n := by
  have H : ∀ m, m < 10 → (digitChar m).toNat = 48 + m := by decide
  exact H n h

theorem digitChar_isDigit {n : Nat} (h : n < 10) : isDigitChar (digitChar n) = true := by
  have H : ∀ m, m < 10 → isDigitChar (digitChar m) = true := by decide
  exact H n h

theorem natDigitsAux_val : ∀ f n, n < f → digitsToNat (natDigitsAux f n) = n := by
  intro f
  induction f with
  | zero => intro n h; omega
  | succ f ih =>
    intro n h
    unfold natDigitsAux
    by_cases h10 : n < 10
    · rw [if_pos h10]
      simp only [digitsToNat, List.foldl_cons, List.foldl_nil]
      rw [digitChar_toNat h10]
      omega
    · rw [if_neg h10]
      have hrec := ih (n / 10) (by omega)
      simp only [digitsToNat, List.foldl_append, List.foldl_cons, List.foldl_nil]
      simp only [digitsToNat] at hrec
      rw [hrec, digitChar_toNat (by omega : n % 10 < 10)]
      omega

theorem digitsToNat_natDigits (n : Nat) : digitsToNat (natDigits n) = n :=
  natDigitsAux_val (n + 1) n (by omega)

theorem natDigitsAux_ne_nil : ∀ f n, n < f → natDigitsAux f n ≠ [] := by
  intro f
  induction f with
  | zero => intro n h; omega
  | succ f ih =>
    intro n h
    unfold natDigitsAux
    by_cases h10 : n < 10
    · rw [if_pos h10]; simp
    · rw [if_neg h10]
      have := ih (n / 10) (by omega)
      simp [this]

theorem natDigitsAux_digits : ∀ f n, n < f → ∀ c ∈ natDigitsAux f n, isDigitChar c = true := by
  intro f
  induction f with
  | zero => intro n h; omega
  | succ f ih =>
    intro n h c hc
    unfold natDigitsAux at hc
    by_cases h10 : n < 10
    · rw [if_pos h10] at hc
      simp only [List.mem_singleton] at hc
      subst hc
      exact digitChar_isDigit h10
    · rw [if_neg h10] at hc
      rcases List.mem_append.mp hc with hm | hm
      · exact ih (n / 10) (by omega) c hm
      · simp only [List.mem_singleton] at hm
        subst hm
        exact digitChar_isDigit (by omega)

theorem natDigitsAux_no_leading_zero :
    ∀ f n, n < f → 1 ≤ n → ∀ t, natDigitsAux f n ≠ '0' :: t := by
  intro f
  induction f with
  | zero => intro n h; omega
  | succ f ih =>
    intro n h h1 t
    unfold natDigitsAux
    by_cases h10 : n < 10
    · rw [if_pos h10]
      intro heq
      have hd : digitChar n = '0' := by
        have h2 := (List.cons.injEq (digitChar n) [] '0' t).mp heq
        exact h2.1
      have H : ∀ m, m < 10 → 1 ≤ m → digitChar m ≠ '0' := by decide
      exact H n h10 h1 hd
    · rw [if_neg h10]
      intro heq
      cases hrec : natDigitsAux f (n / 10) with
      | nil => exact natDigitsAux_ne_nil f (n / 10) (by omega) hrec
      | cons d ds =>
        rw [hrec] at heq
        simp only [List.cons_append, List.cons.injEq] at heq
        exact ih (n / 10) (by omega) (by omega) ds (by rw [hrec, heq.1])

theorem parseExpPart_brace (lex : List Char) (r : List Char) :
    parseExpPart lex ('}' :: r) = some (lex, '}' :: r) := by
  simp [parseExpPart]

theorem parseFracExp_brace (lex : List Char) (r : List Char) :
    parseFracExp lex ('}' :: r) = some (lex, '}' :: r) := by
  simp [parseFracExp, parseExpPart]

theorem natDigits_ne_nil (p : Nat) : natDigits p ≠ [] :=
  natDigitsAux_ne_nil (p + 1) p (by omega)

theorem natDigits_digits (p : Nat) : ∀ c ∈ natDigits p, isDigitChar c = true :=
  natDigitsAux_digits (p + 1) p (by omega)

theorem parseNumber_natDigits (p : Nat) (r : List Char) :
    parseNumber (natDigits p ++ '}' :: r) = some (natDigits p, '}' :: r) := by
  have hne : natDigits p ≠ [] := natDigits_ne_nil p
  have hdig : ∀ c ∈ natDigits p, isDigitChar c = true := natDigits_digits p
  cases hds : natDigits p with
  | nil => exact absurd hds hne
  | cons d ds =>
    have hd : isDigitChar d = true := hdig d (by rw [hds]; exact List.mem_cons_self d ds)
    have hdm : d ≠ '-' := fun heq => absurd (heq ▸ hd) (by decide)
    rw [List.cons_append]
    unfold parseNumber
    simp only []
    rw [if_neg hdm]
    by_cases hd0 : d = '0'
    · subst hd0
      rw [if_pos rfl]
      have hdsnil : p = 0 ∧ ds = [] := by
        by_cases hp : 1 ≤ p
        · exact absurd hds (natDigitsAux_no_leading_zero (p + 1) p (by omega) hp ds)
        · have hp0 : p = 0 := by omega
          subst hp0
          have h00 : natDigits 0 = ['0'] := rfl
          rw [h00] at hds
          refine ⟨rfl, ?_⟩
          injection hds with h1 h2
          exact h2.symm
      obtain ⟨hp, hds0⟩ := hdsnil
      subst hds0
      simp only [List.nil_append]
      exact parseFracExp_brace ['0'] r
    · rw [if_neg hd0, if_pos hd]
      have hsp := takeWhile_append_eq (p := isDigitChar) ds '}' r
        (fun c hc => hdig c (by rw [hds]; exact List.mem_cons_of_mem d hc)) (by decide)
      rw [hsp.1, hsp.2]
      exact parseFracExp_brace (d :: ds) r

theorem hexChar_parse {n : Nat} (h : n < 16) : parseHexDigit (hexChar n) = some n := by
  have H : ∀ m, m < 16 → parseHexDigit (hexChar m) = some m := by decide
  exact H n h

theorem parseStrBody_escape (s rest : List Char) :
    parseStrBody (jsonEscape s ++ '"' :: rest) = some (s, rest) := by
  induction s with
  | nil =>
    simp only [jsonEscape, List.flatMap_nil, List.nil_append]
    unfold parseStrBody
    simp
  | cons c cs ih =>
    have hesc : jsonEscape (c :: cs) = escapeChar c ++ jsonEscape cs := by
      simp [jsonEscape]
    rw [hesc, List.append_assoc]
    by_cases h1 : c = '"'
    · subst h1
      rw [show escapeChar '"' = ['\\', '"'] from rfl]
      unfold parseStrBody
      simp [ih]
    · by_cases h2 : c = '\\'
      · subst h2
        rw [show escapeChar '\\' = ['\\', '\\'] from rfl]
        unfold parseStrBody
        simp [ih]
      · by_cases h3 : c = '\x08'
        · subst h3
          rw [show escapeChar '\x08' = ['\\', 'b'] from rfl]
          unfold parseStrBody
          simp [ih]
        · by_cases h4 : c = '\x0c'
          · subst h4
            rw [show escapeChar '\x0c' = ['\\', 'f'] from rfl]
            unfold parseStrBody
            simp [ih]
          · by_cases h5 : c = '\n'
            · subst h5
              rw [show escapeChar '\n' = ['\\', 'n'] from rfl]
              unfold parseStrBody
              simp [ih]
            · by_cases h6 : c = '\r'
              · subst h6
                rw [show escapeChar '\r' = ['\\', 'r'] from rfl]
                unfold parseStrBody
                simp [ih]
              · by_cases h7 : c = '\t'
                · subst h7
                  rw [show escapeChar '\t' = ['\\', 't'] from rfl]
                  unfold parseStrBody
                  simp [ih]
                · by_cases h8 : c.toNat < 0x20
                  · have heb : escapeChar c =
                        ['\\', 'u', '0', '0', hexChar (c.toNat / 16), hexChar (c.toNat % 16)] := by
                      unfold escapeChar
                      rw [if_neg h1, if_neg h2, if_neg h3, if_neg h4, if_neg h5, if_neg h6,
                        if_neg h7, if_pos h8]
                    rw [heb]
                    have hh1 : parseHexDigit (hexChar (c.toNat / 16)) = some (c.toNat / 16) :=
                      hexChar_parse (by omega)
                    have hh2 : parseHexDigit (hexChar (c.toNat % 16)) = some (c.toNat % 16) :=
                      hexChar_parse (by omega)
                    have hz : parseHexDigit '0' = some 0 := by decide
                    unfold parseStrBody
                    simp [hz, hh1, hh2, ih]
                    rw [show c.toNat / 16 * 16 + c.toNat % 16 = c.toNat from by omega,
                      Char.ofNat_toNat]
                  · have heb : escapeChar c = [c] := by
                      unfold escapeChar
                      rw [if_neg h1, if_neg h2, if_neg h3, if_neg h4, if_neg h5, if_neg h6,
                        if_neg h7, if_neg h8]
                    rw [heb]
                    unfold parseStrBody
                    simp [h1, h2, h8, ih]

theorem parseValue_string (f : Nat) (s rest : List Char) :
    parseValue (f + 1) ('"' :: (jsonEscape s ++ '"' :: rest)) = some (.str s, rest) := by
  unfold parseValue
  simp [skipWs, isJsonWs, parseStrBody_escape]

theorem isDigitChar_facts {d : Char} (hd : isDigitChar d = true) :
    isJsonWs d = false ∧ d ≠ '{' ∧ d ≠ '[' ∧ d ≠ '"' ∧ d ≠ 't' ∧ d ≠ 'f' ∧ d ≠ 'n' ∧
      d ≠ '-' := by
  have h0 : d ≠ ' ' := fun he => absurd (he ▸ hd) (by decide)
  have h1 : d ≠ '\t' := fun he => absurd (he ▸ hd) (by decide)
  have h2 : d ≠ '\n' := fun he => absurd (he ▸ hd) (by decide)
  have h3 : d ≠ '\r' := fun he => absurd (he ▸ hd) (by decide)
  refine ⟨by simp [isJsonWs, h0, h1, h2, h3], fun he => absurd (he ▸ hd) (by decide),
    fun he => absurd (he ▸ hd) (by decide), fun he => absurd (he ▸ hd) (by decide),
    fun he => absurd (he ▸ hd) (by decide), fun he => absurd (he ▸ hd) (by decide),
    fun he => absurd (he ▸ hd) (by decide), fun he => absurd (he ▸ hd) (by decide)⟩

theorem parseValue_number (f : Nat) (p : Nat) (r : List Char) :
    parseValue (f + 1) (natDigits p ++ '}' :: r) = some (.num (natDigits p), '}' :: r) := by
  have hnum := parseNumber_natDigits p r
  cases hds : natDigits p with
  | nil => exact absurd hds (natDigits_ne_nil p)
  | cons d ds =>
    have hd : isDigitChar d = true :=
      natDigits_digits p d (by rw [hds]; exact List.mem_cons_self d ds)
    obtain ⟨hws, hbr, hbk, hq, ht, hf, hn, hm⟩ := isDigitChar_facts hd
    rw [hds] at hnum
    rw [List.cons_append]
    rw [List.cons_append] at hnum
    unfold parseValue
    rw [show skipWs (d :: (ds ++ '}' :: r)) = d :: (ds ++ '}' :: r) from by
      simp [skipWs, hws]]
    simp only []
    rw [if_neg hbr, if_neg hbk, if_neg hq, if_neg ht, if_neg hf, if_neg hn,
      if_pos (by simp [hd])]
    rw [hnum]
    rfl

theorem parseStrBody_plain (k X : List Char) (hk : jsonEscape k = k) :
    parseStrBody (k ++ '"' :: X) = some (k, X) := by
  conv_lhs => rw [← hk]
  exact parseStrBody_escape k X

theorem parseMembers_more (g : Nat) (k V A' : List Char) (v : Json)
    (hk : jsonEscape k = k)
    (hv : parseValue g V = some (v, ',' :: A')) :
    parseMembers (g + 1) ('"' :: (k ++ '"' :: ':' :: V)) =
      (parseMembers g A').map (fun pr => ((k, v) :: pr.1, pr.2)) := by
  conv_lhs => unfold parseMembers
  rw [show skipWs ('"' :: (k ++ '"' :: ':' :: V)) = '"' :: (k ++ '"' :: ':' :: V) from by
    simp [skipWs, isJsonWs]]
  simp only []
  rw [if_pos trivial, parseStrBody_plain k (':' :: V) hk]
  simp only []
  rw [show skipWs (':' :: V) = ':' :: V from by simp [skipWs, isJsonWs]]
  simp only []
  rw [if_pos trivial, hv]
  simp only []
  rw [show skipWs (',' :: A') = ',' :: A' from by simp [skipWs, isJsonWs]]
  simp only []
  rw [if_pos trivial]

theorem parseMembers_last (g : Nat) (k V A' : List Char) (v : Json)
    (hk : jsonEscape k = k)
    (hv : parseValue g V = some (v, '}' :: A')) :
    parseMembers (g + 1) ('"' :: (k ++ '"' :: ':' :: V)) = some ([(k, v)], A') := by
  conv_lhs => unfold parseMembers
  rw [show skipWs ('"' :: (k ++ '"' :: ':' :: V)) = '"' :: (k ++ '"' :: ':' :: V) from by
    simp [skipWs, isJsonWs]]
  simp only []
  rw [if_pos trivial, parseStrBody_plain k (':' :: V) hk]
  simp only []
  rw [show skipWs (':' :: V) = ':' :: V from by simp [skipWs, isJsonWs]]
  simp only []
  rw [if_pos trivial, hv]
  simp only []
  rw [show skipWs ('}' :: A') = '}' :: A' from by simp [skipWs, isJsonWs]]
  simp only []
  rw [if_neg (by decide), if_pos trivial]

theorem parseValue_obj_step (g : Nat) (c : Char) (t : List Char)
    (ms : List (List Char × Json)) (A : List Char)
    (hws : isJsonWs c = false) (hc : c ≠ '}')
    (hm : parseMembers g (c :: t) = some (ms, A)) :
    parseValue (g + 1) ('{' :: c :: t) = some (.obj ms, A) := by
  conv_lhs => unfold parseValue
  rw [show skipWs ('{' :: c :: t) = '{' :: c :: t from by simp [skipWs, isJsonWs]]
  simp only []
  rw [if_pos trivial]
  rw [show skipWs (c :: t) = c :: t from by simp [skipWs, hws]]
  simp only []
  rw [if_neg hc, hm]
  rfl

theorem parseValue_hostInfo (f : Nat) (r : HostInfo) (rest : List Char) :
    parseValue (f + 5) (stringifyHostInfo r ++ rest) = some (hostInfoJson r, rest) := by
  cases hp : r.port with
  | none =>
    have hv2 : parseValue (f + 2) ('"' :: (jsonEscape r.host ++ '"' :: '}' :: rest)) =
        some (.str r.host, '}' :: rest) := by
      rw [show f + 2 = f + 1 + 1 from rfl]
      exact parseValue_string (f + 1) r.host ('}' :: rest)
    have hm2 : parseMembers (f + 3)
        ('"' :: (['h', 'o', 's', 't'] ++ '"' :: ':' ::
          ('"' :: (jsonEscape r.host ++ '"' :: '}' :: rest)))) =
        some ([(['h', 'o', 's', 't'], Json.str r.host)], rest) := by
      rw [show f + 3 = f + 2 + 1 from rfl]
      exact parseMembers_last (f + 2) ['h', 'o', 's', 't'] _ rest (.str r.host) (by decide) hv2
    have hv1 : parseValue (f + 3)
        ('"' :: (jsonEscape r.type ++ '"' :: ',' ::
          ('"' :: (['h', 'o', 's', 't'] ++ '"' :: ':' ::
            ('"' :: (jsonEscape r.host ++ '"' :: '}' :: rest)))))) =
        some (.str r.type, ',' ::
          ('"' :: (['h', 'o', 's', 't'] ++ '"' :: ':' ::
            ('"' :: (jsonEscape r.host ++ '"' :: '}' :: rest))))) := by
      rw [show f + 3 = f + 2 + 1 from rfl]
      exact parseValue_string (f + 2) r.type _
    have hm1 : parseMembers (f + 4)
        ('"' :: (['t', 'y', 'p', 'e'] ++ '"' :: ':' ::
          ('"' :: (jsonEscape r.type ++ '"' :: ',' ::
            ('"' :: (['h', 'o', 's', 't'] ++ '"' :: ':' ::
              ('"' :: (jsonEscape r.host ++ '"' :: '}' :: rest)))))))) =
        some ([(['t', 'y', 'p', 'e'], Json.str r.type),
          (['h', 'o', 's', 't'], Json.str r.host)], rest) := by
      rw [show f + 4 = f + 3 + 1 from rfl]
      rw [parseMembers_more (f + 3) ['t', 'y', 'p', 'e'] _ _ (.str r.type) (by decide) hv1]
      rw [hm2]
      rfl
    rw [show stringifyHostInfo r ++ rest =
      '{' :: '"' :: (['t', 'y', 'p', 'e'] ++ '"' :: ':' ::
        ('"' :: (jsonEscape r.type ++ '"' :: ',' ::
          ('"' :: (['h', 'o', 's', 't'] ++ '"' :: ':' ::
            ('"' :: (jsonEscape r.host ++ '"' :: '}' :: rest))))))) from by
        simp [stringifyHostInfo, stringifyString, hp]]
    rw [show f + 5 = f + 4 + 1 from rfl]
    rw [parseValue_obj_step (f + 4) '"' _ _ rest (by decide) (by decide) hm1]
    rw [show hostInfoJson r = .obj [(['t', 'y', 'p', 'e'], Json.str r.type),
      (['h', 'o', 's', 't'], Json.str r.host)] from by simp [hostInfoJson, hp]]
  | some p =>
    have hv3 : parseValue (f + 1) (natDigits p ++ '}' :: rest) =
        some (.num (natDigits p), '}' :: rest) := parseValue_number f p rest
    have hm3 : parseMembers (f + 2)
        ('"' :: (['p', 'o', 'r', 't'] ++ '"' :: ':' :: (natDigits p ++ '}' :: rest))) =
        some ([(['p', 'o', 'r', 't'], Json.num (natDigits p))], rest) := by
      rw [show f + 2 = f + 1 + 1 from rfl]
      exact parseMembers_last (f + 1) ['p', 'o', 'r', 't'] _ rest (.num (natDigits p))
        (by decide) hv3
    have hv2 : parseValue (f + 2)
        ('"' :: (jsonEscape r.host ++ '"' :: ',' ::
          ('"' :: (['p', 'o', 'r', 't'] ++ '"' :: ':' :: (natDigits p ++ '}' :: rest))))) =
        some (.str r.host, ',' ::
          ('"' :: (['p', 'o', 'r', 't'] ++ '"' :: ':' :: (natDigits p ++ '}' :: rest)))) := by
      rw [show f + 2 = f + 1 + 1 from rfl]
      exact parseValue_string (f + 1) r.host _
    have hm2 : parseMembers (f + 3)
        ('"' :: (['h', 'o', 's', 't'] ++ '"' :: ':' ::
          ('"' :: (jsonEscape r.host ++ '"' :: ',' ::
            ('"' :: (['p', 'o', 'r', 't'] ++ '"' :: ':' :: (natDigits p ++ '}' :: rest))))))) =
        some ([(['h', 'o', 's', 't'], Json.str r.host),
          (['p', 'o', 'r', 't'], Json.num (natDigits p))], rest) := by
      rw [show f + 3 = f + 2 + 1 from rfl]
      rw [parseMembers_more (f + 2) ['h', 'o', 's', 't'] _ _ (.str r.host) (by decide) hv2]
      rw [hm3]
      rfl
    have hv1 : parseValue (f + 3)
        ('"' :: (jsonEscape r.type ++ '"' :: ',' ::
          ('"' :: (['h', 'o', 's', 't'] ++ '"' :: ':' ::
            ('"' :: (jsonEscape r.host ++ '"' :: ',' ::
              ('"' :: (['p', 'o', 'r', 't'] ++ '"' :: ':' ::
                (natDigits p ++ '}' :: rest))))))))) =
        some (.str r.type, ',' ::
          ('"' :: (['h', 'o', 's', 't'] ++ '"' :: ':' ::
            ('"' :: (jsonEscape r.host ++ '"' :: ',' ::
              ('"' :: (['p', 'o', 'r', 't'] ++ '"' :: ':' ::
                (natDigits p ++ '}' :: rest)))))))) := by
      rw [show f + 3 = f + 2 + 1 from rfl]
      exact parseValue_string (f + 2) r.type _
    have hm1 : parseMembers (f + 4)
        ('"' :: (['t', 'y', 'p', 'e'] ++ '"' :: ':' ::
          ('"' :: (jsonEscape r.type ++ '"' :: ',' ::
            ('"' :: (['h', 'o', 's', 't'] ++ '"' :: ':' ::
              ('"' :: (jsonEscape r.host ++ '"' :: ',' ::
                ('"' :: (['p', 'o', 'r', 't'] ++ '"' :: ':' ::
                  (natDigits p ++ '}' :: rest))))))))))) =
        some ([(['t', 'y', 'p', 'e'], Json.str r.type),
          (['h', 'o', 's', 't'], Json.str r.host),
          (['p', 'o', 'r', 't'], Json.num (natDigits p))], rest) := by
      rw [show f + 4 = f + 3 + 1 from rfl]
      rw [parseMembers_more (f + 3) ['t', 'y', 'p', 'e'] _ _ (.str r.type) (by decide) hv1]
      rw [hm2]
      rfl
    rw [show stringifyHostInfo r ++ rest =
      '{' :: '"' :: (['t', 'y', 'p', 'e'] ++ '"' :: ':' ::
        ('"' :: (jsonEscape r.type ++ '"' :: ',' ::
          ('"' :: (['h', 'o', 's', 't'] ++ '"' :: ':' ::
            ('"' :: (jsonEscape r.host ++ '"' :: ',' ::
              ('"' :: (['p', 'o', 'r', 't'] ++ '"' :: ':' ::
                (natDigits p ++ '}' :: rest)))))))))) from by
        simp [stringifyHostInfo, stringifyString, hp]]
    rw [show f + 5 = f + 4 + 1 from rfl]
    rw [parseValue_obj_step (f + 4) '"' _ _ rest (by decide) (by decide) hm1]
    rw [show hostInfoJson r = .obj [(['t', 'y', 'p', 'e'], Json.str r.type),
      (['h', 'o', 's', 't'], Json.str r.host),
      (['p', 'o', 'r', 't'], Json.num (natDigits p))] from by simp [hostInfoJson, hp]]

theorem stripStart_append (p s : List Char) : stripStart p (p ++ s) = some s := by
  induction p with
  | nil => rfl
  | cons c cs ih =>
    rw [List.cons_append]
    unfold stripStart
    rw [if_pos rfl]
    exact ih

theorem findMarker_prepend (s : List Char) : findMarker (marker ++ s) = some s := by
  rw [show marker ++ s =
    'r' :: (['e', 'm', 'o', 't', 'e', '-', 'o', 's', 's', '+'] ++ s) from by simp [marker]]
  unfold findMarker
  rw [show stripStart marker
      ('r' :: (['e', 'm', 'o', 't', 'e', '-', 'o', 's', 's', '+'] ++ s)) = some s from by
    have h := stripStart_append marker s
    rw [show marker ++ s =
      'r' :: (['e', 'm', 'o', 't', 'e', '-', 'o', 's', 's', '+'] ++ s) from by
        simp [marker]] at h
    exact h]

theorem takeWhile_all {p : Char → Bool} : ∀ l : List Char,
    (∀ c ∈ l, p c = true) → l.takeWhile p = l := by
  intro l h
  induction l with
  | nil => rfl
  | cons c cs ih =>
    rw [List.takeWhile_cons, if_pos (h c (List.mem_cons_self c cs))]
    rw [ih (fun x hx => h x (List.mem_cons_of_mem c hx))]

theorem b64Char_mem (i : Nat) : b64Char i ∈ b64Alphabet := by
  unfold b64Char
  by_cases h : i < b64Alphabet.length
  · rw [List.getD_eq_getElem b64Alphabet 'A' h]
    exact List.getElem_mem h
  · rw [List.getD_eq_default b64Alphabet 'A' (by omega)]
    decide

theorem b64Char_isDot (i : Nat) : isDotChar (b64Char i) = true := by
  have H : ∀ c ∈ b64Alphabet, isDotChar c = true := by decide
  exact H (b64Char i) (b64Char_mem i)

theorem base64Encode_isDot (bs : List Nat) : ∀ c ∈ base64Encode bs, isDotChar c = true := by
  induction bs using base64Encode.induct with
  | case1 => intro c hc; simp [base64Encode] at hc
  | case2 b0 =>
    intro c hc
    simp only [base64Encode, List.mem_cons, List.not_mem_nil, or_false] at hc
    rcases hc with h | h | h | h <;> subst h <;> first | exact b64Char_isDot _ | decide
  | case3 b0 b1 =>
    intro c hc
    simp only [base64Encode, List.mem_cons, List.not_mem_nil, or_false] at hc
    rcases hc with h | h | h | h <;> subst h <;> first | exact b64Char_isDot _ | decide
  | case4 b0 b1 b2 bs ih =>
    intro c hc
    simp only [base64Encode, List.mem_cons] at hc
    rcases hc with h | h | h | h | h
    · subst h; exact b64Char_isDot _
    · subst h; exact b64Char_isDot _
    · subst h; exact b64Char_isDot _
    · subst h; exact b64Char_isDot _
    · exact ih c h

theorem utf8Encode_lt (s : List Char) : ∀ b ∈ utf8Encode s, b < 256 := by
  intro b hb
  unfold utf8Encode at hb
  rcases List.mem_flatMap.mp hb with ⟨c, _, hc⟩
  exact utf8EncodeChar_lt c b hc

theorem jsonParse_stringify (r : HostInfo) :
    jsonParse (stringifyHostInfo r) = some (hostInfoJson r) := by
  obtain ⟨f, hf⟩ : ∃ f, (stringifyHostInfo r).length + 1 = f + 5 := by
    refine ⟨(stringifyHostInfo r).length - 4, ?_⟩
    have h4 : 4 ≤ (stringifyHostInfo r).length := by
      simp [stringifyHostInfo, stringifyString]
    omega
  unfold jsonParse
  rw [hf]
  have hpv := parseValue_hostInfo f r []
  rw [List.append_nil] at hpv
  rw [hpv]
  simp [skipWs]

theorem decode_encode_remote_host (r : HostInfo) :
    decode_remote_host (encode_remote_host r) = .ok (hostInfoJson r) := by
  unfold encode_remote_host decode_remote_host
  rw [findMarker_prepend]
  simp only []
  rw [takeWhile_all _ (base64Encode_isDot _)]
  rw [base64_roundtrip _ (utf8Encode_lt _)]
  rw [utf8_roundtrip]
  rw [jsonParse_stringify]

theorem readHostInfo_hostInfoJson (r : HostInfo) :
    readHostInfo (hostInfoJson r) = some r := by
  obtain ⟨t, h, po⟩ := r
  cases po with
  | none =>
    simp [readHostInfo, hostInfoJson, objGet, List.find?]
  | some p =>
    simp [readHostInfo, hostInfoJson, objGet, List.find?, digitsToNat_natDigits]

/-! ## Claim C1 -/

/-- C1: for every valid host reference (kind transient or configured, port
present exactly in the transient case), decoding the token produced by
encoding the reference yields the same reference: the decoded JSON value is
the encoded object, and reading its fields back gives the record. -/
theorem C1_roundtrip (r : HostInfo) (h : validHostInfo r) :
    decodeHostInfo (encode_remote_host r) = some r := by
  unfold decodeHostInfo
  rw [decode_encode_remote_host]
  exact readHostInfo_hostInfoJson r

theorem C1_roundtrip_witness :
    validHostInfo ⟨transientStr, "h".toList, some 22⟩ ∧
    decodeHostInfo (encode_remote_host ⟨transientStr, "h".toList, some 22⟩) =
      some ⟨transientStr, "h".toList, some 22⟩ :=
  ⟨by decide, C1_roundtrip ⟨transientStr, "h".toList, some 22⟩ (by decide)⟩
